import Mathlib

/-!
Verification of the documentation-model lowering pass of this repository
(librustdoc's clean module) and of the secondary node profiler
(librustc_passes' hir_stats module), against the natural-language
specification.  The Rust source is shallowly embedded: each relevant
`Clean` implementation becomes a Lean function over explicit
representations of the compiler inputs it consumes, and the claims are
settled as theorems about those functions.

Conventions of the embedding:
* trait references are identified by their definition id (`Nat`) together
  with a printable path (`String`);
* lifetimes / region names are plain strings (the leading tick is elided);
* fallible compiler queries (constant evaluation, source-snippet lookup)
  are `Option`-valued oracle arguments;
* `panic!` / `expect` aborts are modelled with `Except String`.
-/

/-- hir::TraitBoundModifier — only `None` and `Maybe` are relevant to the
cleaned model (`?Sized` carries `Maybe`). -/
inductive TraitBoundModifier where
  | noMod
  | maybeMod
deriving DecidableEq, Repr

/-- clean::GenericBound: `TraitBound(PolyTrait, modifier)` or
`Outlives(Lifetime)`.  The `PolyTrait` payload is reduced to the path and
definition id of the referenced trait (its generic params and
associated-type bindings play no role in the claims). -/
inductive GenericBound where
  | traitBound (path : String) (did : Nat) (modifier : TraitBoundModifier)
  | outlives (lt : String)
deriving DecidableEq, Repr

/-- True exactly for `GenericBound::TraitBound`. -/
def GenericBound.isTraitB : GenericBound → Bool
  | .traitBound _ _ _ => true
  | .outlives _ => false

/-- Modelled from the spec: `GenericBound::is_sized_bound` (clean/types)
holds for a trait bound on the `Sized` lang item with no modifier — a
positive sized bound.  `sizedDid` is `tcx.lang_items().sized_trait()`. -/
def isSizedBound (sizedDid : Option Nat) : GenericBound → Bool
  | .traitBound _ did .noMod => sizedDid = some did
  | _ => false

/-- Modelled from the spec: `GenericBound::maybe_sized` (clean/types)
builds the negative marker bound `?Sized`: a `TraitBound` on the `Sized`
lang item with the `Maybe` modifier. -/
def maybeSized (sizedDid : Nat) : GenericBound :=
  .traitBound "Sized" sizedDid .maybeMod

/-- Sort key used at clean/mod.rs:803: `TraitBound` sorts as `false`
(here `0`), everything else (`Outlives`) as `true` (here `1`). -/
def boundKey (b : GenericBound) : Nat :=
  if b.isTraitB then 0 else 1

/-- The bound sort of clean/mod.rs:801-807:
`bounds.sort_by_key(|b| !matches TraitBound)`.  Rust's `sort_by_key` is a
stable sort; `List.insertionSort` with the key-induced `≤` is also stable,
and a stable sort's output is uniquely determined by the key order, so the
two agree on every input. -/
def sortBounds (l : List GenericBound) : List GenericBound :=
  List.insertionSort (fun a b => boundKey a ≤ boundKey b) l

theorem orderedInsert_key_zero (x : GenericBound) (hx : boundKey x = 0)
    (L : List GenericBound) :
    List.orderedInsert (fun a b => boundKey a ≤ boundKey b) x L = x :: L := by
  cases L with
  | nil => rfl
  | cons c rest =>
      have : boundKey x ≤ boundKey c := by omega
      simp [List.orderedInsert, this]

theorem orderedInsert_key_one (x : GenericBound) (hx : boundKey x = 1) :
    ∀ (A B : List GenericBound), (∀ b ∈ A, boundKey b = 0) →
      (∀ b ∈ B, boundKey b = 1) →
      List.orderedInsert (fun a b => boundKey a ≤ boundKey b) x (A ++ B) =
        A ++ x :: B := by
  intro A
  induction A with
  | nil =>
      intro B _ hB
      cases B with
      | nil => rfl
      | cons b B' =>
          have hb : boundKey b = 1 := hB b (by simp)
          have : boundKey x ≤ boundKey b := by omega
          simp [List.orderedInsert, this]
  | cons a A' ih =>
      intro B hA hB
      have ha : boundKey a = 0 := hA a (by simp)
      have hcond : ¬ (boundKey x ≤ boundKey a) := by omega
      simp only [List.cons_append, List.orderedInsert, if_neg hcond]
      exact congrArg (a :: ·) (ih B (fun b hb => hA b (by simp [hb])) hB)

theorem boundKey_of_traitB {b : GenericBound} (h : b.isTraitB = true) :
    boundKey b = 0 := by
  simp [boundKey, h]

theorem boundKey_of_not_traitB {b : GenericBound} (h : b.isTraitB = false) :
    boundKey b = 1 := by
  simp [boundKey, h]

/-- C2: the bound sort at clean/mod.rs:801-807 moves every `TraitBound`
entry in front of every `Outlives` entry and, being stable, preserves the
original relative order inside each of the two groups: the sorted list is
exactly the `TraitBound` entries in input order followed by the remaining
entries in input order. -/
theorem sortBounds_eq_filter_append (l : List GenericBound) :
    sortBounds l = l.filter (fun b => b.isTraitB)
      ++ l.filter (fun b => !b.isTraitB) := by
  induction l with
  | nil => rfl
  | cons x l' ih =>
      show List.orderedInsert _ x (sortBounds l') = _
      rw [ih]
      cases hx : x.isTraitB with
      | true =>
          rw [orderedInsert_key_zero x (boundKey_of_traitB hx)]
          simp [List.filter, hx]
      | false =>
          rw [orderedInsert_key_one x (boundKey_of_not_traitB hx)
            (l'.filter (fun b => b.isTraitB)) (l'.filter (fun b => !b.isTraitB))
            (by
              intro b hb
              exact boundKey_of_traitB (List.of_mem_filter hb))
            (by
              intro b hb
              have := List.of_mem_filter hb
              simp only [Bool.not_eq_true'] at this
              exact boundKey_of_not_traitB this)]
          simp [List.filter, hx]

/-- ty::RegionKind, reduced to the cases clean/mod.rs:423-443
distinguishes: the three cleanable kinds, `ReEmpty` (tested for
specially by the outlives-predicate lowering), and the remaining
uncleanable kinds collapsed into one constructor. -/
inductive RegionKind where
  | reStatic
  | reLateBoundNamed (name : String)
  | reEarlyBound (name : String)
  | reEmpty
  | reOther
deriving DecidableEq, Repr

/-- Clean of ty::RegionKind into an optional lifetime
(clean/mod.rs:423-443): static, named late-bound and early-bound regions
clean to their name; every other kind cleans to `none`. -/
def cleanRegion : RegionKind → Option String
  | .reStatic => some "static"
  | .reLateBoundNamed n => some n
  | .reEarlyBound n => some n
  | .reEmpty => none
  | .reOther => none

/-- The cleaned Type (clean::Type), restricted to the variants the claims
touch.  `resolvedPath` keeps the path, the optional auxiliary bound list
(`param_names`), the definition id and the `is_generic` flag; `array`
keeps the inner type and the printed length. -/
inductive CType where
  | never
  | primitive (name : String)
  | generic (name : String)
  | implTrait (bounds : List GenericBound)
  | resolvedPath (path : String) (paramNames : Option (List GenericBound))
      (did : Nat) (isGeneric : Bool)
  | array (inner : CType) (length : String)
  | infer
deriving DecidableEq, Repr

/-- clean::WherePredicate: a bound clause on a type, a region clause on a
lifetime, or an equality clause. -/
inductive WherePredicate where
  | boundPred (ty : CType) (bounds : List GenericBound)
  | regionPred (lt : String) (bounds : List GenericBound)
  | eqPred (lhs rhs : CType)
deriving DecidableEq, Repr

/-- The match inside the retain at clean/mod.rs:843-855: a bound clause
whose subject is a plain type parameter and whose bound list contains a
positive sized bound is recorded under the parameter name (and dropped);
every other clause is kept (`none`). -/
def sizedSubject (sd : Option Nat) : WherePredicate → Option String
  | .boundPred (.generic g) bounds =>
      if bounds.any (isSizedBound sd) then some g else none
  | _ => none

/-- The `sized_params` set accumulated by the retain scan
(clean/mod.rs:842-855); only membership is ever consulted. -/
def sizedParamsOf (sd : Option Nat) (preds : List WherePredicate) : List String :=
  preds.filterMap (sizedSubject sd)

/-- The predicates surviving the retain scan (clean/mod.rs:843-855). -/
def retainNonSized (sd : Option Nat) (preds : List WherePredicate) :
    List WherePredicate :=
  preds.filter (fun p => (sizedSubject sd p).isNone)

/-- clean/mod.rs:857-866: after the scan, push one `?Sized` bound clause
for every declared type parameter not recorded as sized. -/
def appendMaybeSized (sd : Nat) (typarams : List String) (sized : List String)
    (preds : List WherePredicate) : List WherePredicate :=
  preds ++ (typarams.filter (fun tp => !(sized.contains tp))).map
    (fun tp => .boundPred (.generic tp) [maybeSized sd])

/-- Default-Sized reconciliation of clean/mod.rs:842-866: drop (and
record) clauses carrying a positive sized bound on a type parameter, then
append a `?Sized` marker clause for every declared type parameter not so
recorded.  `sd` is the definition id of the `Sized` lang item and
`typarams` the names of the stripped (declared, non-synthetic) type
parameters. -/
def sizedReconcile (sd : Nat) (typarams : List String)
    (preds : List WherePredicate) : List WherePredicate :=
  appendMaybeSized sd typarams (sizedParamsOf (some sd) preds)
    (retainNonSized (some sd) preds)

/-- Number of `?Sized` marker bounds a single clause contributes for
parameter `tp`. -/
def markerContrib (sd : Nat) (tp : String) : WherePredicate → Nat
  | .boundPred (.generic g) bounds =>
      if g = tp then bounds.countP (fun b => b == maybeSized sd) else 0
  | _ => 0

/-- Total number of `?Sized` marker bounds recorded for parameter `tp`
across a clause list. -/
def markerCountFor (sd : Nat) (tp : String) (preds : List WherePredicate) : Nat :=
  (preds.map (markerContrib sd tp)).sum

/-- Whether some clause of the list is a bound clause on parameter `tp`
containing a positive sized bound. -/
def hasPositiveSizedFor (sd : Nat) (tp : String)
    (preds : List WherePredicate) : Bool :=
  preds.any (fun p => sizedSubject (some sd) p == some tp)

theorem markerCountFor_append (sd : Nat) (tp : String)
    (A B : List WherePredicate) :
    markerCountFor sd tp (A ++ B)
      = markerCountFor sd tp A + markerCountFor sd tp B := by
  simp [markerCountFor, List.map_append, List.sum_append]

theorem markerCountFor_filter_le (sd : Nat) (tp : String)
    (q : WherePredicate → Bool) (preds : List WherePredicate) :
    markerCountFor sd tp (preds.filter q) ≤ markerCountFor sd tp preds := by
  induction preds with
  | nil => exact Nat.le_refl 0
  | cons p rest ih =>
      by_cases hq : q p = true
      · rw [List.filter_cons, if_pos hq]
        simp only [markerCountFor, List.map_cons, List.sum_cons] at ih ⊢
        omega
      · rw [List.filter_cons, if_neg hq]
        simp only [markerCountFor, List.map_cons, List.sum_cons] at ih ⊢
        omega

theorem markerCountFor_appended (sd : Nat) (tp : String) (l : List String) :
    markerCountFor sd tp
        (l.map (fun g => WherePredicate.boundPred (.generic g) [maybeSized sd]))
      = l.countP (fun g => g == tp) := by
  induction l with
  | nil => rfl
  | cons g rest ih =>
      simp only [List.map_cons, markerCountFor, List.sum_cons,
        List.countP_cons] at ih ⊢
      rw [ih]
      by_cases hg : g = tp
      · subst hg
        simp [markerContrib, Nat.add_comm]
      · simp only [markerContrib, if_neg hg]
        have : (g == tp) = false := by simp [hg]
        simp [this]

theorem mem_sizedParamsOf (sd : Nat) (tp : String)
    (preds : List WherePredicate) :
    tp ∈ sizedParamsOf (some sd) preds
      ↔ hasPositiveSizedFor sd tp preds = true := by
  simp [sizedParamsOf, List.mem_filterMap, hasPositiveSizedFor,
    List.any_eq_true]

theorem hasPositiveSized_append (sd : Nat) (tp : String)
    (A B : List WherePredicate) :
    hasPositiveSizedFor sd tp (A ++ B)
      = (hasPositiveSizedFor sd tp A || hasPositiveSizedFor sd tp B) := by
  simp [hasPositiveSizedFor, List.any_append]

theorem hasPositiveSized_retain (sd : Nat) (tp : String)
    (preds : List WherePredicate) :
    hasPositiveSizedFor sd tp (retainNonSized (some sd) preds) = false := by
  simp only [hasPositiveSizedFor, retainNonSized]
  rw [Bool.eq_false_iff]
  intro hcontra
  obtain ⟨p, hp, hbeq⟩ := List.any_eq_true.mp hcontra
  have hnone := (List.mem_filter.mp hp).2
  rw [Option.isNone_iff_eq_none.mp hnone] at hbeq
  simp at hbeq

theorem hasPositiveSized_appended (sd : Nat) (tp : String) (l : List String) :
    hasPositiveSizedFor sd tp
        (l.map (fun g => WherePredicate.boundPred (.generic g) [maybeSized sd]))
      = false := by
  simp [hasPositiveSizedFor, List.any_map, Function.comp, sizedSubject,
    maybeSized, isSizedBound]

/-- C1: default-Sized reconciliation (clean/mod.rs:842-866).  For every
declared type parameter `tp`, the output clause list carries exactly one
negative `?Sized` marker bound for `tp` iff no input clause carried a
positive sized bound on `tp` (and zero markers otherwise, the positive
clause being dropped); no parameter ends up with both a positive sized
bound and a marker, nor with a positive sized bound surviving.  The
hypotheses record the compiler invariants: declared parameter names are
distinct and the input predicates (cleaned from ty-level predicates,
whose trait bounds never carry the `Maybe` modifier) contain no marker
bounds. -/
theorem sized_reconcile_marker (sd : Nat) (typarams : List String)
    (preds : List WherePredicate) (tp : String)
    (hmem : tp ∈ typarams) (hnodup : typarams.Nodup)
    (hclean : markerCountFor sd tp preds = 0) :
    markerCountFor sd tp (sizedReconcile sd typarams preds)
        = (if hasPositiveSizedFor sd tp preds then 0 else 1)
      ∧ hasPositiveSizedFor sd tp (sizedReconcile sd typarams preds) = false := by
  have hretain : markerCountFor sd tp (retainNonSized (some sd) preds) = 0 := by
    have h := markerCountFor_filter_le sd tp
      (fun p => (sizedSubject (some sd) p).isNone) preds
    simp only [retainNonSized]
    omega
  constructor
  · simp only [sizedReconcile, appendMaybeSized]
    rw [markerCountFor_append, hretain, markerCountFor_appended, Nat.zero_add,
      List.countP_filter]
    by_cases hp : hasPositiveSizedFor sd tp preds = true
    · rw [if_pos hp]
      apply List.countP_eq_zero.mpr
      intro g hg hcontra
      have h1 : g = tp := by
        have := (Bool.and_eq_true _ _).mp hcontra |>.1
        exact beq_iff_eq.mp this
      subst h1
      have hcont : (sizedParamsOf (some sd) preds).contains g = true :=
        List.elem_iff.mpr ((mem_sizedParamsOf sd g preds).mpr hp)
      rw [hcont] at hcontra
      simp at hcontra
    · rw [if_neg hp]
      have hcong : List.countP
            (fun g => (g == tp) && !((sizedParamsOf (some sd) preds).contains g))
            typarams
          = List.countP (fun g => g == tp) typarams := by
        apply List.countP_congr
        intro g hg
        constructor
        · intro h
          exact ((Bool.and_eq_true _ _).mp h).1
        · intro h
          have hgtp : g = tp := beq_iff_eq.mp h
          subst hgtp
          have hnc : (sizedParamsOf (some sd) preds).contains g = false := by
            rw [Bool.eq_false_iff]
            intro hc
            exact hp ((mem_sizedParamsOf sd g preds).mp (List.elem_iff.mp hc))
          rw [h, hnc]
          rfl
      rw [hcong]
      exact List.count_eq_one_of_mem hnodup hmem
  · simp only [sizedReconcile, appendMaybeSized]
    rw [hasPositiveSized_append, hasPositiveSized_retain,
      hasPositiveSized_appended]
    rfl

/-- Witness for `sized_reconcile_marker`: a parameter `T` declared
`T: Sized` next to a parameter `U` with no sized bound — `T` gets no
marker and its positive clause is dropped, `U` gets exactly one marker. -/
theorem sized_reconcile_marker_witness :
    markerCountFor 0 "T"
        (sizedReconcile 0 ["T", "U"]
          [.boundPred (.generic "T") [.traitBound "Sized" 0 .noMod]])
        = 0
      ∧ hasPositiveSizedFor 0 "T"
          (sizedReconcile 0 ["T", "U"]
            [.boundPred (.generic "T") [.traitBound "Sized" 0 .noMod]])
          = false := by
  have h := sized_reconcile_marker 0 ["T", "U"]
    [.boundPred (.generic "T") [.traitBound "Sized" 0 .noMod]] "T"
    (by decide) (by decide) (by decide)
  rw [if_pos (by decide)] at h
  exact h

/-- A cleaned trait reference (a `PolyTrait` whose `trait_` resolved to a
`ResolvedPath`), reduced to path, definition id and the `is_generic`
flag of that path. -/
structure PolyTraitRefC where
  path : String
  did : Nat
  isGeneric : Bool
deriving DecidableEq, Repr

/-- A hir lifetime: printed name plus whether it was elided. -/
structure HirLifetime where
  name : String
  elided : Bool
deriving DecidableEq, Repr

/-- Lowering of `TyKind::TraitObject` (clean/mod.rs:1502-1516): the first
bound cleans to the principal `ResolvedPath` reused as the nominal path
(so the principal is excluded from the auxiliary list); each remaining
bound becomes a `TraitBound` entry; a non-elided lifetime is pushed last
as an `Outlives` entry.  `none` models the unreachable non-ResolvedPath /
empty-bounds cases. -/
def cleanTraitObject (bounds : List PolyTraitRefC) (lt : HirLifetime) :
    Option CType :=
  match bounds with
  | [] => none
  | b0 :: rest =>
      let aux := rest.map (fun b => GenericBound.traitBound b.path b.did .noMod)
      let aux2 := if lt.elided then aux
        else aux ++ [GenericBound.outlives lt.name]
      some (CType.resolvedPath b0.path (some aux2) b0.did b0.isGeneric)

/-- Lowering of `ty::Dynamic` (clean/mod.rs:1596-1649): the principal (or,
for a marker-only object, the first auto trait) supplies the nominal path;
the cleaned region is pushed into `param_names` FIRST, then the remaining
ids become `TraitBound` entries.  `none` models the panic on an object
with no traits at all. -/
def cleanDynamic (principal : Option PolyTraitRefC)
    (autoTraits : List PolyTraitRefC) (reg : RegionKind) : Option CType :=
  match principal.toList ++ autoTraits with
  | [] => none
  | d0 :: rest =>
      let pn0 := match cleanRegion reg with
        | some l => [GenericBound.outlives l]
        | none => []
      let pns := pn0
        ++ rest.map (fun b => GenericBound.traitBound b.path b.did .noMod)
      some (CType.resolvedPath d0.path (some pns) d0.did false)

/-- True when no `Outlives` entry is followed by a `TraitBound` entry,
i.e. all `TraitBound` entries precede all `Outlives` entries. -/
def traitFirstOrdered : List GenericBound → Bool
  | [] => true
  | .traitBound _ _ _ :: rest => traitFirstOrdered rest
  | .outlives _ :: rest => rest.all (fun b => !b.isTraitB)

/-- Auxiliary bound list (`param_names`) of a lowered trait object. -/
def auxBoundsOf : Option CType → List GenericBound
  | some (.resolvedPath _ (some pns) _ _) => pns
  | _ => []

/-- C3 counterexample: lowering the typed trait object with principal
`Display`, auto trait `Send` and early-bound region `a`
(clean/mod.rs:1596-1649) places the `Outlives` entry FIRST, before the
auto-trait `TraitBound` entry — the claimed fixed order (every TraitBound
before the trailing Outlives) does not hold on the typed path. -/
theorem dynamic_outlives_first_counterexample :
    auxBoundsOf (cleanDynamic (some ⟨"Display", 1, false⟩)
        [⟨"Send", 2, false⟩] (.reEarlyBound "a"))
        = [GenericBound.outlives "a", GenericBound.traitBound "Send" 2 .noMod]
      ∧ traitFirstOrdered (auxBoundsOf (cleanDynamic (some ⟨"Display", 1, false⟩)
          [⟨"Send", 2, false⟩] (.reEarlyBound "a"))) = false := by
  exact ⟨rfl, rfl⟩

/-- C3 (amended): both trait-object lowerings make the principal the
nominal `ResolvedPath`, excluded from the auxiliary list, and turn the
remaining interfaces into `TraitBound` entries in order; but the lifetime
position differs.  In the hir lowering (clean/mod.rs:1502-1516) a
non-elided lifetime is a single trailing `Outlives` entry after all
`TraitBound` entries; in the typed lowering (clean/mod.rs:1596-1649) the
cleaned region's `Outlives` entry comes first, before the auto-trait
`TraitBound` entries. -/
theorem trait_object_lowering (b0 : PolyTraitRefC) (rest : List PolyTraitRefC)
    (lt : HirLifetime) (p : PolyTraitRefC) (autoTraits : List PolyTraitRefC)
    (reg : RegionKind) (hlt : lt.elided = false) :
    cleanTraitObject (b0 :: rest) lt
        = some (CType.resolvedPath b0.path
            (some (rest.map (fun b => GenericBound.traitBound b.path b.did .noMod)
              ++ [GenericBound.outlives lt.name])) b0.did b0.isGeneric)
      ∧ cleanDynamic (some p) autoTraits reg
        = some (CType.resolvedPath p.path
            (some ((cleanRegion reg).toList.map GenericBound.outlives
              ++ autoTraits.map
                (fun b => GenericBound.traitBound b.path b.did .noMod)))
            p.did false) := by
  constructor
  · simp [cleanTraitObject, hlt]
  · cases hr : cleanRegion reg <;> simp [cleanDynamic, hr]

/-- Witness for `trait_object_lowering` at the spec's own example:
`dyn Display + Send + 'a` on the hir path gives the trailing Outlives;
the typed path with a static region gives the leading Outlives. -/
theorem trait_object_lowering_witness :
    cleanTraitObject [⟨"Display", 1, false⟩, ⟨"Send", 2, false⟩] ⟨"a", false⟩
        = some (CType.resolvedPath "Display"
            (some [GenericBound.traitBound "Send" 2 .noMod,
              GenericBound.outlives "a"]) 1 false)
      ∧ cleanDynamic (some ⟨"Display", 1, false⟩) [⟨"Send", 2, false⟩]
          .reStatic
        = some (CType.resolvedPath "Display"
            (some [GenericBound.outlives "static",
              GenericBound.traitBound "Send" 2 .noMod]) 1 false) := by
  have h := trait_object_lowering ⟨"Display", 1, false⟩ [⟨"Send", 2, false⟩]
    ⟨"a", false⟩ ⟨"Display", 1, false⟩ [⟨"Send", 2, false⟩] .reStatic rfl
  exact h

/-- An evaluated constant, identified by the literal `print_const`
prints for it. -/
structure EvalConst where
  lit : String
deriving DecidableEq, Repr

/-- Modelled from the spec: `print_const` (clean/utils) on a successfully
evaluated constant prints the evaluated literal. -/
def printEvalConst (c : EvalConst) : String := c.lit

/-- Lowering of `TyKind::Array` (clean/mod.rs:1336-1352): attempt constant
evaluation of the length body (`constEvalRes` is the `tcx.const_eval`
oracle result); on success print the evaluated literal, on failure fall
back to the source snippet of the length span (`snippetRes`, the
`span_to_snippet` oracle), and if that also fails use the `"_"`
placeholder. -/
def cleanHirArray (inner : CType) (constEvalRes : Option EvalConst)
    (snippetRes : Option String) : CType :=
  CType.array inner (match constEvalRes with
    | some c => printEvalConst c
    | none => match snippetRes with
      | some s => s
      | none => "_")

/-- A `ty::Const` array length: either already evaluated, or an
unevaluated body carrying the optional source text `print_const` would
recover for it. -/
inductive TyConst where
  | evaluated (c : EvalConst)
  | unevaluated (srcText : Option String)
deriving DecidableEq, Repr

/-- Modelled from the spec: `print_const` (clean/utils) prints an
evaluated constant as its literal, and an unevaluated body as its
expression source text, falling back to the placeholder. -/
def printConst : TyConst → String
  | .evaluated c => c.lit
  | .unevaluated (some s) => s
  | .unevaluated none => "_"

/-- Lowering of `ty::Array` (clean/mod.rs:1536-1549): an unevaluated
length is replaced by the `const_eval` result when that succeeds
(`constEvalRes`), and kept unevaluated when it fails; `print_const` then
prints whatever constant remains. -/
def cleanTyArray (inner : CType) (n : TyConst)
    (constEvalRes : Option EvalConst) : CType :=
  let n2 := match n with
    | .unevaluated _ =>
        match constEvalRes with
        | some newN => TyConst.evaluated newN
        | none => n
    | _ => n
  CType.array inner (printConst n2)

/-- C4: both array lowerings are total (never abort) and produce, in
order of fallback: the printed evaluated literal on successful constant
evaluation, the exact source text on evaluation failure, and the `"_"`
placeholder when the source text is also unavailable. -/
theorem array_length_fallback (inner : CType) (c : EvalConst) (s : String)
    (snip : Option String) (src : Option String) :
    cleanHirArray inner (some c) snip = CType.array inner c.lit
      ∧ cleanHirArray inner none (some s) = CType.array inner s
      ∧ cleanHirArray inner none none = CType.array inner "_"
      ∧ cleanTyArray inner (.unevaluated src) (some c) = CType.array inner c.lit
      ∧ cleanTyArray inner (.unevaluated (some s)) none = CType.array inner s
      ∧ cleanTyArray inner (.unevaluated none) none = CType.array inner "_" :=
  ⟨rfl, rfl, rfl, rfl, rfl, rfl⟩

/-- Association-list lookup modelling the hash-map `get` queries of the
Substitution Context. -/
def assocLookup {β : Type} : List (Nat × β) → Nat → Option β
  | [], _ => none
  | (k, v) :: rest, d => if k = d then some v else assocLookup rest d

/-- Lowering of a hir type-parameter path (clean/mod.rs:1362-1370 plus
the `resolve_type` tail): `cx.ty_substs` is consulted first and an entry
returned directly; otherwise a registered `cx.impl_trait_bounds` entry is
taken and returned as `ImplTrait`; otherwise the parameter reference
resolves generically.  The tail is modelled from the spec: `resolve_type`
(clean/utils, outside this source span) lowers a plain type-parameter
path to `Generic(name)`. -/
def cleanHirTyParamPath (tySubsts : List (Nat × CType))
    (itBounds : List (Nat × List GenericBound)) (did : Nat) (name : String) :
    CType :=
  match assocLookup tySubsts did with
  | some newTy => newTy
  | none =>
      match assocLookup itBounds did with
      | some bounds => CType.implTrait bounds
      | none => CType.generic name

/-- Lowering of `ty::Param` (clean/mod.rs:1656-1662): a registered
impl-trait bound list (keyed by parameter index) wins, otherwise
`Generic(name)`. -/
def cleanTyParam (itBounds : List (Nat × List GenericBound)) (index : Nat)
    (name : String) : CType :=
  match assocLookup itBounds index with
  | some bounds => CType.implTrait bounds
  | none => CType.generic name

/-- C7: the substitution context is consulted in the claimed order.  On
the hir path a `ty_substs` hit is returned as-is; failing that, a
registered opaque-parameter bound list produces `ImplTrait`; only
otherwise does the reference lower to `Generic(name)`.  On the typed
path (`ty::Param`, where no def-id keyed substitution applies) the same
last two steps hold. -/
theorem ty_param_lookup_order (tySubsts : List (Nat × CType))
    (itBounds : List (Nat × List GenericBound)) (did : Nat) (name : String) :
    (∀ t, assocLookup tySubsts did = some t →
      cleanHirTyParamPath tySubsts itBounds did name = t)
    ∧ (assocLookup tySubsts did = none →
        ∀ bs, assocLookup itBounds did = some bs →
          cleanHirTyParamPath tySubsts itBounds did name = CType.implTrait bs)
    ∧ (assocLookup tySubsts did = none → assocLookup itBounds did = none →
        cleanHirTyParamPath tySubsts itBounds did name = CType.generic name)
    ∧ (∀ bs, assocLookup itBounds did = some bs →
        cleanTyParam itBounds did name = CType.implTrait bs)
    ∧ (assocLookup itBounds did = none →
        cleanTyParam itBounds did name = CType.generic name) := by
  refine ⟨?_, ?_, ?_, ?_, ?_⟩
  · intro t h
    simp [cleanHirTyParamPath, h]
  · intro h bs h2
    simp [cleanHirTyParamPath, h, h2]
  · intro h h2
    simp [cleanHirTyParamPath, h, h2]
  · intro bs h
    simp [cleanTyParam, h]
  · intro h
    simp [cleanTyParam, h]

/-- Witness for `ty_param_lookup_order`: with a substitution registered
for id 1 and opaque bounds registered for id 2, id 1 lowers to the
substituted type, id 2 to `ImplTrait`, and id 3 generically. -/
theorem ty_param_lookup_order_witness :
    cleanHirTyParamPath [(1, CType.primitive "u32")]
        [(2, [GenericBound.outlives "a"])] 1 "T" = CType.primitive "u32"
      ∧ cleanHirTyParamPath [(1, CType.primitive "u32")]
          [(2, [GenericBound.outlives "a"])] 2 "T"
        = CType.implTrait [GenericBound.outlives "a"]
      ∧ cleanHirTyParamPath [(1, CType.primitive "u32")]
          [(2, [GenericBound.outlives "a"])] 3 "T" = CType.generic "T" := by
  refine ⟨?_, ?_, ?_⟩
  · exact (ty_param_lookup_order [(1, CType.primitive "u32")]
      [(2, [GenericBound.outlives "a"])] 1 "T").1 _ rfl
  · exact (ty_param_lookup_order [(1, CType.primitive "u32")]
      [(2, [GenericBound.outlives "a"])] 2 "T").2.1 rfl _ rfl
  · exact (ty_param_lookup_order [(1, CType.primitive "u32")]
      [(2, [GenericBound.outlives "a"])] 3 "T").2.2.1 rfl rfl

/-- ty::Predicate, reduced to the kinds distinguished by
clean/mod.rs:472-489 with the payloads their lowerings consume. -/
inductive TyPredicate where
  | traitP (selfTy : CType) (traitPath : String) (traitDid : Nat)
  | subtypeP
  | regionOutlivesP (a b : RegionKind)
  | typeOutlivesP (ty : CType) (lt : RegionKind)
  | projectionP (lhs rhs : CType)
  | wellFormedP
  | objectSafeP
  | closureKindP
  | constEvaluatableP
deriving DecidableEq, Repr

/-- Clean of `ty::Predicate` into an optional where-predicate
(clean/mod.rs:472-550).  Aborts are modelled as `Except.error` carrying
the source's message: the subtype arm delegates to the
`SubtypePredicate` impl (clean/mod.rs:500-505) which aborts
unconditionally; the four internal kinds abort with "not user writable";
the two outlives arms return `none` for their empty-region cases and
otherwise `expect` the regions to clean
(clean/mod.rs:507-541). -/
def cleanPredicate : TyPredicate → Except String (Option WherePredicate)
  | .traitP selfTy path did =>
      .ok (some (.boundPred selfTy [GenericBound.traitBound path did .noMod]))
  | .subtypeP => .error "subtype predicates are an internal rustc artifact"
  | .regionOutlivesP a b =>
      match a, b with
      | .reEmpty, .reEmpty => .ok none
      | _, _ =>
          match cleanRegion a, cleanRegion b with
          | some la, some lb =>
              .ok (some (.regionPred la [GenericBound.outlives lb]))
          | none, _ => .error "failed to clean lifetime"
          | _, none => .error "failed to clean bounds"
  | .typeOutlivesP ty lt =>
      match lt with
      | .reEmpty => .ok none
      | _ =>
          match cleanRegion lt with
          | some l => .ok (some (.boundPred ty [GenericBound.outlives l]))
          | none => .error "failed to clean lifetimes"
  | .projectionP lhs rhs => .ok (some (.eqPred lhs rhs))
  | .wellFormedP => .error "not user writable"
  | .objectSafeP => .error "not user writable"
  | .closureKindP => .error "not user writable"
  | .constEvaluatableP => .error "not user writable"

/-- Whether lowering the predicate aborts. -/
def predAborts (p : TyPredicate) : Bool :=
  match cleanPredicate p with
  | .error _ => true
  | .ok _ => false

/-- C8: the predicate kinds the Program Database contract filters out
before this stage — subtype, well-formed, object-safe, closure-kind,
const-evaluatable — abort loudly when lowered, while the user-writable
kinds lower without aborting: trait and projection predicates always,
and the two outlives kinds on regions that clean to a lifetime (the only
region kinds the contract lets user-writable predicates carry) or on
their graceful empty-region cases. -/
theorem predicate_abort_policy :
    predAborts .subtypeP = true
      ∧ predAborts .wellFormedP = true
      ∧ predAborts .objectSafeP = true
      ∧ predAborts .closureKindP = true
      ∧ predAborts .constEvaluatableP = true
      ∧ (∀ selfTy path did, predAborts (.traitP selfTy path did) = false)
      ∧ (∀ lhs rhs, predAborts (.projectionP lhs rhs) = false)
      ∧ (∀ a b, (cleanRegion a).isSome → (cleanRegion b).isSome →
          predAborts (.regionOutlivesP a b) = false)
      ∧ predAborts (.regionOutlivesP .reEmpty .reEmpty) = false
      ∧ (∀ ty lt, lt = RegionKind.reEmpty ∨ (cleanRegion lt).isSome →
          predAborts (.typeOutlivesP ty lt) = false) := by
  refine ⟨rfl, rfl, rfl, rfl, rfl, fun _ _ _ => rfl, fun _ _ => rfl,
    ?_, rfl, ?_⟩
  · intro a b ha hb
    cases a <;> simp [cleanRegion] at ha <;>
      cases b <;> simp [cleanRegion] at hb <;>
        simp [predAborts, cleanPredicate, cleanRegion]
  · intro ty lt h
    rcases h with h | h
    · subst h
      rfl
    · cases lt <;> simp [cleanRegion] at h <;>
        simp [predAborts, cleanPredicate, cleanRegion]

/-- Witness for `predicate_abort_policy`: a concrete outlives predicate
on cleanable regions and a type-outlives predicate on a static region
both lower without aborting. -/
theorem predicate_abort_policy_witness :
    predAborts (.regionOutlivesP .reStatic (.reEarlyBound "a")) = false
      ∧ predAborts (.typeOutlivesP CType.never .reStatic) = false := by
  constructor
  · exact predicate_abort_policy.2.2.2.2.2.2.2.1 .reStatic (.reEarlyBound "a")
      (by decide) (by decide)
  · exact predicate_abort_policy.2.2.2.2.2.2.2.2.2 CType.never .reStatic
      (Or.inr (by decide))

/-- The sized scan of the `ty::Opaque` lowering (clean/mod.rs:1685-1690):
a trait predicate on the `Sized` lang item sets `has_sized`.  `sd` is the
`Sized` definition id (the lang item is taken as present, as
`maybe_sized` requires it anyway). -/
def ityHasSized (sd : Nat) (preds : List TyPredicate) : Bool :=
  preds.any fun p => match p with
    | .traitP _ _ did => did = sd
    | _ => false

/-- The trait-bound collection of the `ty::Opaque` lowering
(clean/mod.rs:1672-1712): each trait predicate becomes a `TraitBound`
entry (its associated-type binding list is elided here) except the
`Sized` bound, which is skipped. -/
def ityTraitBounds (sd : Nat) (preds : List TyPredicate) : List GenericBound :=
  preds.filterMap fun p => match p with
    | .traitP _ path did =>
        if did = sd then none
        else some (GenericBound.traitBound path did .noMod)
    | _ => none

/-- The region collection of the same pass (clean/mod.rs:1675-1680):
type-outlives predicates push their cleaned region; uncleanable regions
are dropped by the `map`. -/
def ityRegions (preds : List TyPredicate) : List GenericBound :=
  preds.filterMap fun p => match p with
    | .typeOutlivesP _ lt => (cleanRegion lt).map GenericBound.outlives
    | _ => none

/-- The assembled bound list before the marker step
(clean/mod.rs:1672-1713): trait bounds in predicate order, then the
collected regions (`bounds.extend(regions)`). -/
def ityAssembled (sd : Nat) (preds : List TyPredicate) : List GenericBound :=
  ityTraitBounds sd preds ++ ityRegions preds

/-- Lowering of `ty::Opaque` (clean/mod.rs:1664-1718): assemble the
bounds, then insert the `?Sized` marker at the front iff no explicit
`Sized` bound was seen and the assembled list is non-empty. -/
def cleanImplTraitTy (sd : Nat) (preds : List TyPredicate) : CType :=
  let bounds := ityAssembled sd preds
  CType.implTrait
    (if !ityHasSized sd preds && !bounds.isEmpty
      then maybeSized sd :: bounds else bounds)

/-- C10: the `ty::Opaque` lowering removes every explicit positive
`Sized` bound from the assembled list (which also never contains a
marker of its own); when no `Sized` bound was present and the assembled
list is non-empty, exactly one `?Sized` marker is inserted at the front;
when the assembled list is empty the result is `ImplTrait []` with no
marker; and when a `Sized` bound was present the assembled list is
returned unchanged. -/
theorem impl_trait_ty_sized_marker (sd : Nat) (preds : List TyPredicate) :
    ((ityAssembled sd preds).all
        (fun b => !isSizedBound (some sd) b && !(b == maybeSized sd)) = true)
      ∧ (ityHasSized sd preds = false → ityAssembled sd preds ≠ [] →
          cleanImplTraitTy sd preds
            = CType.implTrait (maybeSized sd :: ityAssembled sd preds))
      ∧ (ityAssembled sd preds = [] →
          cleanImplTraitTy sd preds = CType.implTrait [])
      ∧ (ityHasSized sd preds = true →
          cleanImplTraitTy sd preds
            = CType.implTrait (ityAssembled sd preds)) := by
  refine ⟨?_, ?_, ?_, ?_⟩
  · apply List.all_eq_true.mpr
    intro b hb
    rcases List.mem_append.mp hb with hb | hb
    · obtain ⟨p, hp, hsome⟩ := List.mem_filterMap.mp hb
      cases p with
      | traitP selfTy path did =>
          by_cases hd : did = sd
          · simp [hd] at hsome
          · simp only [if_neg hd] at hsome
            rw [Option.some_inj] at hsome
            subst hsome
            simp [isSizedBound, maybeSized, Ne.symm hd]
      | subtypeP => simp at hsome
      | regionOutlivesP a b => simp at hsome
      | typeOutlivesP ty lt => simp at hsome
      | projectionP lhs rhs => simp at hsome
      | wellFormedP => simp at hsome
      | objectSafeP => simp at hsome
      | closureKindP => simp at hsome
      | constEvaluatableP => simp at hsome
    · obtain ⟨p, hp, hsome⟩ := List.mem_filterMap.mp hb
      cases p with
      | typeOutlivesP ty lt =>
          cases hr : cleanRegion lt with
          | none => simp [hr] at hsome
          | some l =>
              simp [hr] at hsome
              subst hsome
              simp [isSizedBound, maybeSized]
      | traitP selfTy path did => simp at hsome
      | subtypeP => simp at hsome
      | regionOutlivesP a b => simp at hsome
      | projectionP lhs rhs => simp at hsome
      | wellFormedP => simp at hsome
      | objectSafeP => simp at hsome
      | closureKindP => simp at hsome
      | constEvaluatableP => simp at hsome
  · intro h hne
    cases hA : ityAssembled sd preds with
    | nil => exact absurd hA hne
    | cons x rest => simp [cleanImplTraitTy, h, hA]
  · intro hA
    simp [cleanImplTraitTy, hA]
  · intro h
    simp [cleanImplTraitTy, h]

/-- Witness for `impl_trait_ty_sized_marker`: `impl Display + 'static`
(no explicit `Sized`) gets the marker at the front; a bound-free
existential lowers to an empty `ImplTrait`. -/
theorem impl_trait_ty_sized_marker_witness :
    cleanImplTraitTy 0
        [.traitP CType.never "Display" 1, .typeOutlivesP CType.never .reStatic]
        = CType.implTrait [maybeSized 0,
            GenericBound.traitBound "Display" 1 .noMod,
            GenericBound.outlives "static"]
      ∧ cleanImplTraitTy 0 [] = CType.implTrait [] := by
  constructor
  · exact (impl_trait_ty_sized_marker 0
      [.traitP CType.never "Display" 1,
        .typeOutlivesP CType.never .reStatic]).2.1 (by decide) (by decide)
  · exact (impl_trait_ty_sized_marker 0 []).2.2.1 rfl

/-- An attribute as the import lowering reads it: whether it is a `doc`
attribute, and its optional meta-item word list. -/
structure Attr where
  isDoc : Bool
  metaList : Option (List String)
deriving DecidableEq, Repr

/-- The base denial of clean/mod.rs:2215-2221: not public, or annotated
`doc(no_inline)` or `doc(hidden)`. -/
def deniedBase (isPub : Bool) (attrs : List Attr) : Bool :=
  !isPub || attrs.any (fun a =>
    a.isDoc && (match a.metaList with
      | some l => l.contains "no_inline" || l.contains "hidden"
      | none => false))

/-- clean/mod.rs:2224: `attrs.lists(doc).has_word(inline)`. -/
def pleaseInline (attrs : List Attr) : Bool :=
  attrs.any (fun a => a.isDoc && (a.metaList.getD []).contains "inline")

/-- The resolved import target as the decision consults it: printable
path, whether the resolution is a module definition, whether it is
crate-local, and whether its def-index is the crate root index. -/
structure PathRes where
  path : String
  isModDef : Bool
  isLocal : Bool
  isCrateRootIndex : Bool
deriving DecidableEq, Repr

/-- clean/mod.rs:2238-2245: the target is a non-local crate root module. -/
def isForeignCrateRoot (r : PathRes) : Bool :=
  r.isModDef && !r.isLocal && r.isCrateRootIndex

/-- A `doctree::Import` as its lowering consumes it. -/
structure ImportDecl where
  isPub : Bool
  attrs : List Attr
  glob : Bool
  name : String
  res : PathRes
deriving DecidableEq, Repr

/-- Result of lowering an import: a fully inlined item list, or an
Import placeholder (glob or simple) referencing the target path. -/
inductive ImportResult where
  | inlined (items : List Nat)
  | globPlaceholder (path : String)
  | simplePlaceholder (name : String) (path : String)
deriving DecidableEq, Repr

/-- Lowering of `doctree::Import` (clean/mod.rs:2209-2272).  `tryInl` and
`tryGlob` are the `inline::try_inline` / `try_inline_glob` oracles (the
inline module is outside this source span); inlined items are reduced to
ids.  Control flow mirrors the source: compute the base denial and the
`doc(inline)` override, extend the denial for a non-local crate-root
target lacking the override, attempt inlining only when not denied, and
fall back to the placeholder variant. -/
def cleanImport (tryInl : PathRes → Option (List Nat))
    (tryGlob : PathRes → Option (List Nat)) (imp : ImportDecl) :
    ImportResult :=
  let denied := deniedBase imp.isPub imp.attrs
  let pi := pleaseInline imp.attrs
  if imp.glob then
    if !denied then
      match tryGlob imp.res with
      | some items => ImportResult.inlined items
      | none => ImportResult.globPlaceholder imp.res.path
    else ImportResult.globPlaceholder imp.res.path
  else
    let denied2 := denied || (!pi && isForeignCrateRoot imp.res)
    if !denied2 then
      match tryInl imp.res with
      | some items => ImportResult.inlined items
      | none => ImportResult.simplePlaceholder imp.name imp.res.path
    else ImportResult.simplePlaceholder imp.name imp.res.path

/-- C5: the non-glob import decision follows the claimed order — denied
when the use declaration is not public or is annotated doc(no_inline) or
doc(hidden); additionally denied when the target is a non-local crate
root without an overriding doc(inline); every denied case yields the
Import placeholder referencing the external path; otherwise inlining is
attempted (its failure also degrading to the same placeholder). -/
theorem import_decision (tryInl tryGlob : PathRes → Option (List Nat))
    (imp : ImportDecl) (hglob : imp.glob = false) :
    ((deniedBase imp.isPub imp.attrs
        || (!pleaseInline imp.attrs && isForeignCrateRoot imp.res)) = true →
      cleanImport tryInl tryGlob imp
        = ImportResult.simplePlaceholder imp.name imp.res.path)
    ∧ ((deniedBase imp.isPub imp.attrs
        || (!pleaseInline imp.attrs && isForeignCrateRoot imp.res)) = false →
      cleanImport tryInl tryGlob imp
        = (match tryInl imp.res with
          | some items => ImportResult.inlined items
          | none => ImportResult.simplePlaceholder imp.name imp.res.path)) := by
  constructor
  · intro h
    simp [cleanImport, hglob, h]
  · intro h
    simp [cleanImport, hglob, h]

/-- Witness for `import_decision`: a public re-export of an external
module annotated `doc(no_inline)` lowers to the Import placeholder even
though the inlining oracle would succeed, while the same import without
the annotation is inlined. -/
theorem import_decision_witness :
    cleanImport (fun _ => some [7]) (fun _ => none)
        { isPub := true,
          attrs := [{ isDoc := true, metaList := some ["no_inline"] }],
          glob := false, name := "ext_mod",
          res := { path := "other::ext_mod", isModDef := true,
                   isLocal := false, isCrateRootIndex := false } }
        = ImportResult.simplePlaceholder "ext_mod" "other::ext_mod"
      ∧ cleanImport (fun _ => some [7]) (fun _ => none)
          { isPub := true, attrs := [], glob := false, name := "ext_mod",
            res := { path := "other::ext_mod", isModDef := true,
                     isLocal := false, isCrateRootIndex := false } }
        = ImportResult.inlined [7] := by
  constructor
  · exact (import_decision (fun _ => some [7]) (fun _ => none) _ rfl).1
      (by decide)
  · exact (import_decision (fun _ => some [7]) (fun _ => none) _ rfl).2
      (by decide)

/-- The kind of a module child, one per doctree group of
clean/mod.rs:237-253. -/
inductive ItemKind where
  | kCrateRef
  | kImport
  | kStruct
  | kUnion
  | kEnum
  | kFn
  | kForeign
  | kMod
  | kTypedef
  | kExistential
  | kStatic
  | kConst
  | kTrait
  | kImpl
  | kMacro
  | kProcMacro
  | kTraitAlias
deriving DecidableEq, Repr

/-- A doctree module reduced to its per-kind child lists; each child is
represented by its source position.  The doctree builder fills each list
in declaration order. -/
structure DocModule where
  crateRefs : List Nat
  imports : List Nat
  structs : List Nat
  unions : List Nat
  enums : List Nat
  fns : List Nat
  foreigns : List Nat
  mods : List Nat
  typedefs : List Nat
  implTys : List Nat
  statics : List Nat
  constants : List Nat
  traits : List Nat
  impls : List Nat
  macros : List Nat
  procMacros : List Nat
  traitAliases : List Nat
deriving DecidableEq, Repr

/-- The group of a module belonging to one child kind. -/
def groupOf (m : DocModule) : ItemKind → List Nat
  | .kCrateRef => m.crateRefs
  | .kImport => m.imports
  | .kStruct => m.structs
  | .kUnion => m.unions
  | .kEnum => m.enums
  | .kFn => m.fns
  | .kForeign => m.foreigns
  | .kMod => m.mods
  | .kTypedef => m.typedefs
  | .kExistential => m.implTys
  | .kStatic => m.statics
  | .kConst => m.constants
  | .kTrait => m.traits
  | .kImpl => m.impls
  | .kMacro => m.macros
  | .kProcMacro => m.procMacros
  | .kTraitAlias => m.traitAliases

/-- The fixed order of the `items.extend` calls at clean/mod.rs:237-253. -/
def moduleKindOrder : List ItemKind :=
  [.kCrateRef, .kImport, .kStruct, .kUnion, .kEnum, .kFn, .kForeign, .kMod,
    .kTypedef, .kExistential, .kStatic, .kConst, .kTrait, .kImpl, .kMacro,
    .kProcMacro, .kTraitAlias]

/-- Lowering of `doctree::Module` children (clean/mod.rs:236-253): the
seventeen per-kind lists are cleaned and concatenated in the fixed
source order of the `items.extend` calls.  Cleaning a child preserves
its kind and source position, so each child is kept as a tagged span
(the flat_map groups may expand one child into several items in place,
which does not affect order across children). -/
def cleanModuleItems (m : DocModule) : List (ItemKind × Nat) :=
  (m.crateRefs.map (fun s => (ItemKind.kCrateRef, s)))
  ++ (m.imports.map (fun s => (ItemKind.kImport, s)))
  ++ (m.structs.map (fun s => (ItemKind.kStruct, s)))
  ++ (m.unions.map (fun s => (ItemKind.kUnion, s)))
  ++ (m.enums.map (fun s => (ItemKind.kEnum, s)))
  ++ (m.fns.map (fun s => (ItemKind.kFn, s)))
  ++ (m.foreigns.map (fun s => (ItemKind.kForeign, s)))
  ++ (m.mods.map (fun s => (ItemKind.kMod, s)))
  ++ (m.typedefs.map (fun s => (ItemKind.kTypedef, s)))
  ++ (m.implTys.map (fun s => (ItemKind.kExistential, s)))
  ++ (m.statics.map (fun s => (ItemKind.kStatic, s)))
  ++ (m.constants.map (fun s => (ItemKind.kConst, s)))
  ++ (m.traits.map (fun s => (ItemKind.kTrait, s)))
  ++ (m.impls.map (fun s => (ItemKind.kImpl, s)))
  ++ (m.macros.map (fun s => (ItemKind.kMacro, s)))
  ++ (m.procMacros.map (fun s => (ItemKind.kProcMacro, s)))
  ++ (m.traitAliases.map (fun s => (ItemKind.kTraitAlias, s)))

/-- Adjacent source positions are non-decreasing. -/
def spansNondecreasing : List Nat → Bool
  | [] => true
  | [_] => true
  | a :: b :: rest => decide (a ≤ b) && spansNondecreasing (b :: rest)

/-- C6 counterexample: a module declaring a function (position 0) before
a struct (position 1) lowers with the struct first — the fixed
kind-group order of clean/mod.rs:237-253 overrides the declared source
order across kinds, so the output does not preserve declared order. -/
theorem module_order_counterexample :
    (cleanModuleItems
        { crateRefs := [], imports := [], structs := [1], unions := [],
          enums := [], fns := [0], foreigns := [], mods := [],
          typedefs := [], implTys := [], statics := [], constants := [],
          traits := [], impls := [], macros := [], procMacros := [],
          traitAliases := [] }).map Prod.snd = [1, 0]
      ∧ spansNondecreasing ((cleanModuleItems
          { crateRefs := [], imports := [], structs := [1], unions := [],
            enums := [], fns := [0], foreigns := [], mods := [],
            typedefs := [], implTys := [], statics := [], constants := [],
            traits := [], impls := [], macros := [], procMacros := [],
            traitAliases := [] }).map Prod.snd) = false :=
  ⟨rfl, rfl⟩

theorem filter_tagged (k k2 : ItemKind) (l : List Nat) :
    (l.map (fun s => (k2, s))).filter (fun it => it.1 == k)
      = if k2 = k then l.map (fun s => (k2, s)) else [] := by
  induction l with
  | nil => simp
  | cons x rest ih =>
      by_cases hk : k2 = k
      · simp [hk, List.filter_cons, ih] at ih ⊢
      · simp only [List.map_cons, List.filter_cons]
        have : ((k2, x).1 == k) = false := by
          simp [hk]
        rw [this]
        simp only [ih, if_neg hk]
        simp

/-- C6 (amended): module children are emitted grouped by kind, the
groups concatenated in the fixed order of the extend calls
(`moduleKindOrder`), and within each kind group the declared order is
preserved: filtering the output to any one kind returns exactly that
kind's input list in order. -/
theorem module_children_order (m : DocModule) (k : ItemKind) :
    cleanModuleItems m
        = (moduleKindOrder.map
            (fun k2 => (groupOf m k2).map (fun s => (k2, s)))).flatten
      ∧ (cleanModuleItems m).filter (fun it => it.1 == k)
        = (groupOf m k).map (fun s => (k, s)) := by
  constructor
  · simp [cleanModuleItems, moduleKindOrder, groupOf, List.append_assoc]
  · cases k <;>
      simp [cleanModuleItems, groupOf, List.filter_append, filter_tagged]

/-- Identity of a profiled node (hir_stats.rs:13-18): a hir node id, an
attribute id, or no id. -/
inductive StatId where
  | node (n : Nat)
  | attrId (n : Nat)
  | noId
deriving DecidableEq, Repr

/-- Per-label profile data (hir_stats.rs:20-23). -/
structure NodeData where
  count : Nat
  size : Nat
deriving DecidableEq, Repr

/-- Collector state (hir_stats.rs:25-29): the label-keyed data map (an
association list in insertion order — only the row set matters to the
report) and the seen set. -/
structure StatState where
  data : List (String × NodeData)
  seen : List StatId
deriving DecidableEq, Repr

/-- The `entry().or_insert` and update of `record` (hir_stats.rs:58-64):
bump the label's count and overwrite its per-instance size. -/
def updateEntry : List (String × NodeData) → String → Nat →
    List (String × NodeData)
  | [], label, size => [(label, { count := 1, size := size })]
  | (l, d) :: rest, label, size =>
      if l = label then (l, { count := d.count + 1, size := size }) :: rest
      else (l, d) :: updateEntry rest label size

/-- `StatCollector::record` (hir_stats.rs:53-65): an identified node
already seen is skipped; otherwise its id (when present) enters the seen
set and the label's entry is bumped. -/
def record (st : StatState) (label : String) (id : StatId) (size : Nat) :
    StatState :=
  if id ≠ StatId.noId ∧ id ∈ st.seen then st
  else
    { data := updateEntry st.data label size,
      seen := if id = StatId.noId then st.seen else id :: st.seen }

/-- Aggregate size `count * size` of a row (hir_stats.rs:70). -/
def aggSize (e : String × NodeData) : Nat := e.2.count * e.2.size

/-- The report rows of `StatCollector::print` (hir_stats.rs:67-70):
`stats.sort_by_key(|(_, d)| d.count * d.size)` — ascending and stable;
embedded with the stable `List.insertionSort`, as for `sortBounds`. -/
def printRows (data : List (String × NodeData)) :
    List (String × NodeData) :=
  List.insertionSort (fun a b => aggSize a ≤ aggSize b) data

/-- The grand total accumulated by the print loop (hir_stats.rs:80-92):
`total_size += data.count * data.size` over the printed rows. -/
def printTotal (data : List (String × NodeData)) : Nat :=
  (printRows data).foldl (fun acc e => acc + aggSize e) 0

theorem foldl_add_aggSize (l : List (String × NodeData)) :
    ∀ a : Nat, l.foldl (fun acc e => acc + aggSize e) a
      = a + (l.map aggSize).sum := by
  induction l with
  | nil => intro a; simp
  | cons x rest ih =>
      intro a
      simp only [List.foldl_cons, List.map_cons, List.sum_cons, ih]
      omega

/-- C9: the profiler report lists its rows in ascending order of
aggregate size (count × size), the rows are exactly the recorded
node-kind rows (a permutation of the data), and the grand total equals
the sum of count × size over all recorded node kinds. -/
theorem profiler_report (data : List (String × NodeData)) :
    List.Sorted (fun a b => aggSize a ≤ aggSize b) (printRows data)
      ∧ List.Perm (printRows data) data
      ∧ printTotal data = (data.map aggSize).sum := by
  refine ⟨?_, List.perm_insertionSort _ _, ?_⟩
  · haveI : IsTotal (String × NodeData) (fun a b => aggSize a ≤ aggSize b) :=
      ⟨fun a b => Nat.le_total _ _⟩
    haveI : IsTrans (String × NodeData) (fun a b => aggSize a ≤ aggSize b) :=
      ⟨fun a b c hab hbc => Nat.le_trans hab hbc⟩
    exact List.sorted_insertionSort _ _
  · rw [printTotal, foldl_add_aggSize, Nat.zero_add]
    exact List.Perm.sum_eq (List.Perm.map _ (List.perm_insertionSort _ _))
